import Mathlib

/-!
Verification of the Omok (five-in-a-row) game-state engine, a shallow
embedding of `src/game_state.py` (class `GameState`).

Cells are stored as the strings "black" / "white" / "empty", exactly as the
Python code stores `Player.*.value` strings in `self.board`.  Row and column
indices are `Int` (Python `int`); the board is a `List (List String)`.
-/

namespace Omok

/-- `Player` enum from `game_state.py` (values "black", "white", "empty"). -/
inductive Player where
  | black
  | white
  | empty
deriving DecidableEq

/-- The `.value` string of a `Player`, as in the Python `Enum`. -/
def Player.value : Player → String
  | .black => "black"
  | .white => "white"
  | .empty => "empty"

/-- `GameStatus` enum from `game_state.py`. -/
inductive GameStatus where
  | ongoing
  | black_wins
  | white_wins
  | draw
deriving DecidableEq

/-- The `.value` string of a `GameStatus`, as in the Python `Enum`. -/
def GameStatus.value : GameStatus → String
  | .ongoing => "ongoing"
  | .black_wins => "black_wins"
  | .white_wins => "white_wins"
  | .draw => "draw"

/-- `GameState.BOARD_SIZE = 15`. -/
def BOARD_SIZE : Nat := 15

/-- The aggregate state held by the Python `GameState` object. -/
structure GameState where
  board : List (List String)
  current_player : Player
  game_status : GameStatus
  move_count : Int
  winner : Option Player
  last_move : Option (Int × Int)
deriving DecidableEq

/-- `self.board[r][c]` for already-validated indices (total via defaults;
the callers below only use it after an explicit bounds check, as the
Python code does). -/
def get_cell (b : List (List String)) (r c : Nat) : String :=
  (b.getD r []).getD c ""

/-- `self.board[r][c] = v`: replace one cell, in-place in Python. -/
def set_cell (b : List (List String)) (r c : Nat) (v : String) : List (List String) :=
  b.set r ((b.getD r []).set c v)

/-- The state produced by `GameState.reset_game`. -/
def resetState : GameState where
  board := List.replicate BOARD_SIZE (List.replicate BOARD_SIZE Player.empty.value)
  current_player := Player.black
  game_status := GameStatus.ongoing
  move_count := 0
  winner := none
  last_move := none

/-- `GameState.is_valid_move(row, col)`: status must be ongoing, indices in
range, target cell empty (checked in that order, with early returns). -/
def is_valid_move (s : GameState) (row col : Int) : Bool :=
  if s.game_status ≠ GameStatus.ongoing then false
  else if row < 0 ∨ (BOARD_SIZE : Int) ≤ row ∨ col < 0 ∨ (BOARD_SIZE : Int) ≤ col then false
  else decide (get_cell s.board row.toNat col.toNat = Player.empty.value)

/-- One arm of the `while` loops in `check_win`: starting at `(r, c)`, count
consecutive cells equal to `p` while stepping by `(dr, dc)` and staying on
the board.  The loop body runs at most `BOARD_SIZE` times (each step moves
the row or the column by 1, so at most 15 positions on a ray are in
bounds), so fuel `BOARD_SIZE` computes exactly the Python loop's count. -/
def count_dir (b : List (List String)) (p : String) :
    Nat → Int → Int → Int → Int → Nat
  | 0, _, _, _, _ => 0
  | n + 1, r, c, dr, dc =>
    if 0 ≤ r ∧ r < (BOARD_SIZE : Int) ∧ 0 ≤ c ∧ c < (BOARD_SIZE : Int) ∧
        get_cell b r.toNat c.toNat = p
    then count_dir b p n (r + dr) (c + dc) dr dc + 1
    else 0

/-- Total run of `p`-cells through `(row, col)` along axis `(dr, dc)`:
the placed stone itself (count = 1) plus both rays, exactly the per-axis
count accumulated by `check_win`. -/
def line_count (b : List (List String)) (p : String) (row col dr dc : Int) : Nat :=
  1 + count_dir b p BOARD_SIZE (row + dr) (col + dc) dr dc
    + count_dir b p BOARD_SIZE (row - dr) (col - dc) (-dr) (-dc)

/-- The four axis directions scanned by `check_win`. -/
def directions : List (Int × Int) := [(0, 1), (1, 0), (1, 1), (1, -1)]

/-- `GameState.check_win(row, col)`: some axis through the placed stone
carries a run of length ≥ 5 of the current player's marks. -/
def check_win (s : GameState) (row col : Int) : Bool :=
  directions.any fun d =>
    decide (5 ≤ line_count s.board s.current_player.value row col d.1 d.2)

/-- Lines 189-192 of `make_move`: place the stone, record `last_move`,
bump `move_count` (the state just before the win/draw check). -/
def placed (s : GameState) (row col : Int) : GameState :=
  { s with
    board := set_cell s.board row.toNat col.toNat s.current_player.value
    last_move := some (row, col)
    move_count := s.move_count + 1 }

/-- `GameState.make_move(row, col)`: validate; place the stone, record
`last_move`, bump `move_count`; then exactly one of the win / draw /
advance-player branches.  Returns the Python `bool` result paired with the
(possibly unchanged) state. -/
def make_move (s : GameState) (row col : Int) : Bool × GameState :=
  if is_valid_move s row col then
    if check_win (placed s row col) row col then
      (true, { placed s row col with
               winner := some (placed s row col).current_player
               game_status :=
                 if (placed s row col).current_player = Player.black then GameStatus.black_wins
                 else GameStatus.white_wins })
    else if (BOARD_SIZE : Int) * BOARD_SIZE ≤ (placed s row col).move_count then
      (true, { placed s row col with game_status := GameStatus.draw })
    else
      (true, { placed s row col with
               current_player :=
                 if (placed s row col).current_player = Player.black then Player.white
                 else Player.black })
  else (false, s)

/-- States reachable from `reset_game` by successful `make_move` calls. -/
inductive Reachable : GameState → Prop where
  | reset : Reachable resetState
  | step (s : GameState) (row col : Int) :
      Reachable s → (make_move s row col).1 = true →
      Reachable (make_move s row col).2

/-- Number of non-"empty" cells in one row. -/
def countRow (row : List String) : Nat :=
  row.countP fun c => decide (c ≠ Player.empty.value)

/-- Number of non-"empty" cells on the board. -/
def countStones (b : List (List String)) : Nat :=
  (b.map countRow).sum

/-- The board is exactly 15 rows of exactly 15 cells. -/
def WF (b : List (List String)) : Prop :=
  b.length = BOARD_SIZE ∧ ∀ i, i < BOARD_SIZE → (b.getD i []).length = BOARD_SIZE

instance : DecidablePred WF := fun b => by
  unfold WF; infer_instance

/-- Conjunction of the spec's data-model invariants, established below for
every reachable state. -/
def Inv (s : GameState) : Prop :=
  WF s.board ∧
  s.current_player ≠ Player.empty ∧
  s.move_count = (countStones s.board : Int) ∧
  (s.game_status = GameStatus.ongoing → s.winner = none) ∧
  (s.game_status = GameStatus.draw → s.winner = none) ∧
  (s.game_status = GameStatus.black_wins → s.winner = some Player.black) ∧
  (s.game_status = GameStatus.white_wins → s.winner = some Player.white) ∧
  (s.game_status = GameStatus.ongoing →
    (s.current_player = Player.black ↔ s.move_count % 2 = 0)) ∧
  (s.game_status = GameStatus.ongoing → s.move_count ≠ 225)

/-! ## Persistence model (`load_state` / `save_state`)

The JSON file is modelled by `LoadInput`: the file may be absent, may fail
`json.load` (a `JSONDecodeError`), or parses to a record `RawData` whose
fields mirror the untyped dictionary (`data.get(...)` defaults are applied
at the use sites, as in the Python).  An absent field is `none`; JSON
`null` for `winner` / `last_move` is also `none` (both are falsy in the
`if data.get(...)` guards).  `save_state` writes the dictionary built at
lines 96-103; the model returns it instead of touching a file. -/

/-- The parsed persisted dictionary. -/
structure RawData where
  board : Option (List (List String))
  current_player : Option String
  game_status : Option String
  move_count : Option Int
  winner : Option String
  last_move : Option (Int × Int)
deriving DecidableEq

/-- `Player(value)`: `none` models the `ValueError` raised on an unknown
enum value. -/
def parse_player (v : String) : Option Player :=
  if v = "black" then some Player.black
  else if v = "white" then some Player.white
  else if v = "empty" then some Player.empty
  else none

/-- `GameStatus(value)`: `none` models the `ValueError` on an unknown value. -/
def parse_status (v : String) : Option GameStatus :=
  if v = "ongoing" then some GameStatus.ongoing
  else if v = "black_wins" then some GameStatus.black_wins
  else if v = "white_wins" then some GameStatus.white_wins
  else if v = "draw" then some GameStatus.draw
  else none

/-- The dictionary written by `GameState.save_state`. -/
def save_data (s : GameState) : RawData where
  board := some s.board
  current_player := some s.current_player.value
  game_status := some s.game_status.value
  move_count := some s.move_count
  winner := s.winner.map Player.value
  last_move := s.last_move

/-- The persisted representation as seen by `load_state`. -/
inductive LoadInput where
  | noFile
  | unparseable
  | parsed (d : RawData)
deriving DecidableEq

/-- `Player(data['winner']) if data.get('winner') else None`: absent / null /
empty-string are falsy and give `none`; otherwise an unknown enum value
raises (outer `none`), and a known one parses (outer `some`). -/
def parse_winner (w : Option String) : Option (Option Player) :=
  match w with
  | none => some none
  | some v => if v = "" then some none else (parse_player v).map some

/-- `GameState.load_state`, modelled as a function of the persisted input.
Result: (the returned `bool`, the state the object holds afterwards, and
`some d` when `save_state` was called with dictionary `d`, else `none`).
On any caught exception (lines 82-86) the code resets, saves and returns
`False`; on a board-shape violation (lines 76-78) it resets, saves and
falls through to `return True`. -/
def load_state (_s : GameState) (input : LoadInput) :
    Bool × GameState × Option RawData :=
  match input with
  | .noFile => (true, resetState, some (save_data resetState))
  | .unparseable => (false, resetState, some (save_data resetState))
  | .parsed d =>
    match parse_player (d.current_player.getD Player.black.value) with
    | none => (false, resetState, some (save_data resetState))
    | some cp =>
      match parse_status (d.game_status.getD GameStatus.ongoing.value) with
      | none => (false, resetState, some (save_data resetState))
      | some st =>
        match parse_winner d.winner with
        | none => (false, resetState, some (save_data resetState))
        | some win =>
          let board := d.board.getD []
          if board.length ≠ BOARD_SIZE ∨ board.any fun row => decide (row.length ≠ BOARD_SIZE) then
            (true, resetState, some (save_data resetState))
          else
            (true,
             { board := board
               current_player := cp
               game_status := st
               move_count := d.move_count.getD 0
               winner := win
               last_move := d.last_move },
             none)

/-- Characterisation of malformed persisted input: unparseable text, an
unknown enum value in `current_player` / `game_status` / `winner`, or a
board that is not exactly 15×15 (a missing `board` field defaults to `[]`
and so lands in the shape case; other missing fields default silently). -/
def Malformed : LoadInput → Prop
  | .noFile => False
  | .unparseable => True
  | .parsed d =>
      parse_player (d.current_player.getD Player.black.value) = none
    ∨ parse_status (d.game_status.getD GameStatus.ongoing.value) = none
    ∨ parse_winner d.winner = none
    ∨ (d.board.getD []).length ≠ BOARD_SIZE
    ∨ (∃ row ∈ d.board.getD [], row.length ≠ BOARD_SIZE)

/-- The field-level parses of a persisted record all succeed (the board
shape may still be wrong). -/
def ParseOk (d : RawData) : Prop :=
  parse_player (d.current_player.getD Player.black.value) ≠ none
  ∧ parse_status (d.game_status.getD GameStatus.ongoing.value) ≠ none
  ∧ parse_winner d.winner ≠ none

instance : DecidablePred Malformed := fun input => by
  cases input <;> (unfold Malformed; infer_instance)

/-! ## Sequences of moves -/

/-- Apply a list of moves in order (each through `make_move`). -/
def playMoves (s : GameState) : List (Int × Int) → GameState
  | [] => s
  | m :: ms => playMoves (make_move s m.1 m.2).2 ms

/-- Every move in the list succeeds when played in order from `s`. -/
def allSucceed (s : GameState) : List (Int × Int) → Prop
  | [] => True
  | m :: ms => (make_move s m.1 m.2).1 = true ∧ allSucceed (make_move s m.1 m.2).2 ms

def allSucceedDec (s : GameState) : (ms : List (Int × Int)) → Decidable (allSucceed s ms)
  | [] => .isTrue trivial
  | m :: ms => @instDecidableAnd _ _ _ (allSucceedDec (make_move s m.1 m.2).2 ms)

instance (s : GameState) (ms : List (Int × Int)) : Decidable (allSucceed s ms) :=
  allSucceedDec s ms

/-! ## Concrete states used to instantiate the theorems -/

/-- A board with four black stones at (0,0)…(0,3). -/
def fourBoard : List (List String) :=
  (Player.black.value :: Player.black.value :: Player.black.value :: Player.black.value ::
    List.replicate 11 Player.empty.value) ::
  List.replicate 14 (List.replicate 15 Player.empty.value)

/-- An ongoing position where Black is one stone away from five in a row. -/
def fourState : GameState where
  board := fourBoard
  current_player := Player.black
  game_status := GameStatus.ongoing
  move_count := 7
  winner := none
  last_move := none

/-- A state whose move counter is one short of a full board. -/
def almostFullState : GameState :=
  { resetState with move_count := 224 }

/-- A finished (drawn) state. -/
def drawState : GameState :=
  { resetState with game_status := GameStatus.draw }

/-- A persisted record whose `game_status` is not a valid enum value. -/
def bogusData : RawData where
  board := some resetState.board
  current_player := some Player.black.value
  game_status := some "bogus"
  move_count := some 0
  winner := none
  last_move := none

/-! ## Helper lemmas -/

lemma parse_player_value (p : Player) : parse_player p.value = some p := by
  cases p <;> rfl

lemma parse_status_value (g : GameStatus) : parse_status g.value = some g := by
  cases g <;> rfl

lemma is_valid_move_iff (s : GameState) (row col : Int) :
    is_valid_move s row col = true ↔
      s.game_status = GameStatus.ongoing ∧ 0 ≤ row ∧ row < 15 ∧ 0 ≤ col ∧ col < 15 ∧
      get_cell s.board row.toNat col.toNat = Player.empty.value := by
  unfold is_valid_move
  split
  · rename_i h
    simp only [Bool.false_eq_true, false_iff]
    intro hc
    exact h hc.1
  · rename_i h
    rw [not_not] at h
    split
    · rename_i hb
      simp only [Bool.false_eq_true, false_iff, BOARD_SIZE] at hb ⊢
      omega
    · rename_i hb
      simp only [BOARD_SIZE, not_or, not_lt, not_le] at hb
      simp only [decide_eq_true_iff]
      push_cast at hb ⊢
      constructor
      · intro hc
        exact ⟨h, by omega, by omega, by omega, by omega, hc⟩
      · intro hc
        exact hc.2.2.2.2.2

lemma make_move_invalid (s : GameState) (row col : Int)
    (h : is_valid_move s row col = false) : make_move s row col = (false, s) := by
  simp [make_move, h]

lemma make_move_success_valid (s : GameState) (row col : Int)
    (h : (make_move s row col).1 = true) : is_valid_move s row col = true := by
  by_contra hv
  rw [Bool.not_eq_true] at hv
  rw [make_move_invalid s row col hv] at h
  exact Bool.false_ne_true h

lemma make_move_win_eq (s : GameState) (row col : Int)
    (hv : is_valid_move s row col = true)
    (hw : check_win (placed s row col) row col = true) :
    make_move s row col =
      (true, { placed s row col with
               winner := some s.current_player
               game_status :=
                 if s.current_player = Player.black then GameStatus.black_wins
                 else GameStatus.white_wins }) := by
  simp only [make_move, hv, if_true, hw]
  simp [placed]

lemma make_move_draw_eq (s : GameState) (row col : Int)
    (hv : is_valid_move s row col = true)
    (hw : check_win (placed s row col) row col = false)
    (hfull : (225 : Int) ≤ s.move_count + 1) :
    make_move s row col = (true, { placed s row col with game_status := GameStatus.draw }) := by
  have h2 : ((BOARD_SIZE : Int) * BOARD_SIZE ≤ s.move_count + 1) := by
    simp only [BOARD_SIZE]
    push_cast
    omega
  simp only [make_move, hv, if_true, hw]
  simp [placed, h2]

lemma make_move_advance_eq (s : GameState) (row col : Int)
    (hv : is_valid_move s row col = true)
    (hw : check_win (placed s row col) row col = false)
    (hnf : ¬ (225 : Int) ≤ s.move_count + 1) :
    make_move s row col =
      (true, { placed s row col with
               current_player :=
                 if s.current_player = Player.black then Player.white
                 else Player.black }) := by
  have h2 : ¬ ((BOARD_SIZE : Int) * BOARD_SIZE ≤ s.move_count + 1) := by
    simp only [BOARD_SIZE]
    push_cast
    omega
  simp only [make_move, hv, if_true, hw]
  simp [placed, h2]

lemma getD_set_ne {α : Type} (l : List α) (i j : Nat) (v d : α) (h : i ≠ j) :
    (l.set i v).getD j d = l.getD j d := by
  rw [List.getD_eq_getElem?_getD, List.getD_eq_getElem?_getD, List.getElem?_set_ne h]

lemma getD_set_self {α : Type} (l : List α) (i : Nat) (v d : α) (h : i < l.length) :
    (l.set i v).getD i d = v := by
  rw [List.getD_eq_getElem?_getD, List.getElem?_set_eq_of_lt v h]
  rfl

lemma length_set_cell (b : List (List String)) (r c : Nat) (v : String) :
    (set_cell b r c v).length = b.length := by
  simp [set_cell]

lemma WF_set_cell (b : List (List String)) (r c : Nat) (v : String)
    (hwf : WF b) (hr : r < BOARD_SIZE) : WF (set_cell b r c v) := by
  obtain ⟨hlen, hrows⟩ := hwf
  refine ⟨by simp [set_cell, hlen], ?_⟩
  intro i hi
  by_cases hir : r = i
  · subst hir
    rw [set_cell, getD_set_self _ _ _ _ (by omega), List.length_set]
    exact hrows r hr
  · rw [set_cell, getD_set_ne _ _ _ _ _ hir]
    exact hrows i hi

lemma get_cell_set_cell_self (b : List (List String)) (r c : Nat) (v : String)
    (hwf : WF b) (hr : r < BOARD_SIZE) (hc : c < BOARD_SIZE) :
    get_cell (set_cell b r c v) r c = v := by
  obtain ⟨hlen, hrows⟩ := hwf
  rw [get_cell, set_cell, getD_set_self _ _ _ _ (by omega),
      getD_set_self _ _ _ _ (by rw [hrows r hr]; omega)]

lemma get_cell_set_cell_ne (b : List (List String)) (r c i j : Nat) (v : String)
    (h : ¬ (i = r ∧ j = c)) :
    get_cell (set_cell b r c v) i j = get_cell b i j := by
  by_cases hir : i = r
  · subst hir
    have hjc : c ≠ j := fun hc => h ⟨rfl, hc.symm⟩
    by_cases hlt : i < b.length
    · rw [get_cell, set_cell, getD_set_self _ _ _ _ hlt, getD_set_ne _ _ _ _ _ hjc, get_cell]
    · have hnone : b[i]? = none := by
        rw [List.getElem?_eq_none_iff]
        omega
      rw [get_cell, set_cell,
          List.getD_eq_getElem?_getD (b.set i ((b.getD i []).set c v)) i [],
          List.getElem?_set_self', hnone,
          get_cell, List.getD_eq_getElem?_getD b i [], hnone]
      rfl
  · rw [get_cell, set_cell, getD_set_ne _ _ _ _ _ (fun hri => hir hri.symm), get_cell]

lemma countRow_set (row : List String) (c : Nat) (v : String)
    (hc : c < row.length) (hempty : row.getD c "" = Player.empty.value)
    (hv : v ≠ Player.empty.value) :
    countRow (row.set c v) = countRow row + 1 := by
  induction row generalizing c with
  | nil => simp at hc
  | cons a l ih =>
    cases c with
    | zero =>
      simp only [List.getD_cons_zero] at hempty
      subst hempty
      simp [countRow, List.countP_cons, hv]
    | succ c =>
      simp only [List.getD_cons_succ] at hempty
      simp only [List.length_cons, Nat.succ_lt_succ_iff] at hc
      simp only [List.set_cons_succ, countRow, List.countP_cons]
      have := ih c hc hempty
      simp only [countRow] at this
      omega

lemma countStones_set_cell (b : List (List String)) (r c : Nat) (v : String)
    (hr : r < b.length) (hc : c < (b.getD r []).length)
    (hempty : get_cell b r c = Player.empty.value) (hv : v ≠ Player.empty.value) :
    countStones (set_cell b r c v) = countStones b + 1 := by
  induction b generalizing r with
  | nil => simp at hr
  | cons hd tl ih =>
    cases r with
    | zero =>
      simp only [List.getD_cons_zero] at hc
      simp only [get_cell, List.getD_cons_zero] at hempty
      simp only [set_cell, List.getD_cons_zero, List.set_cons_zero]
      simp only [countStones, List.map_cons, List.sum_cons]
      rw [countRow_set hd c v hc hempty hv]
      omega
    | succ r =>
      simp only [List.length_cons, Nat.succ_lt_succ_iff] at hr
      simp only [List.getD_cons_succ] at hc
      simp only [get_cell, List.getD_cons_succ] at hempty
      simp only [set_cell, List.getD_cons_succ, List.set_cons_succ]
      simp only [countStones, List.map_cons, List.sum_cons]
      have := ih r hr hc (by rw [get_cell]; exact hempty)
      simp only [set_cell, countStones] at this
      omega

/-! ## The reachable-state invariant -/

lemma Inv_resetState : Inv resetState := by
  unfold Inv
  decide

lemma current_player_value_ne_empty (p : Player) (h : p ≠ Player.empty) :
    p.value ≠ Player.empty.value := by
  cases p with
  | black => decide
  | white => decide
  | empty => exact absurd rfl h

lemma Inv_step (s : GameState) (row col : Int) (hInv : Inv s)
    (hs : (make_move s row col).1 = true) : Inv (make_move s row col).2 := by
  obtain ⟨hwf, hcp, hcount, hong_w, hdraw_w, hbw, hww, hpar, hfull⟩ := hInv
  have hv := make_move_success_valid s row col hs
  obtain ⟨hong, hr0, hr15, hc0, hc15, hcell⟩ := (is_valid_move_iff s row col).1 hv
  have hrlt : row.toNat < BOARD_SIZE := by unfold BOARD_SIZE; omega
  have hclt : col.toNat < BOARD_SIZE := by unfold BOARD_SIZE; omega
  have hwf1 : WF (set_cell s.board row.toNat col.toNat s.current_player.value) :=
    WF_set_cell _ _ _ _ hwf hrlt
  have hcnt1 : countStones (set_cell s.board row.toNat col.toNat s.current_player.value)
      = countStones s.board + 1 := by
    refine countStones_set_cell _ _ _ _ ?_ ?_ hcell
      (current_player_value_ne_empty _ hcp)
    · rw [hwf.1]
      exact hrlt
    · rw [hwf.2 row.toNat hrlt]
      exact hclt
  have hmcount : s.move_count + 1 = ((countStones
      (set_cell s.board row.toNat col.toNat s.current_player.value) : Nat) : Int) := by
    rw [hcnt1]
    push_cast
    omega
  cases hw : check_win (placed s row col) row col with
  | true =>
    rw [make_move_win_eq s row col hv hw]
    simp only [Inv, placed]
    refine ⟨hwf1, hcp, hmcount, ?_, ?_, ?_, ?_, ?_, ?_⟩
    · by_cases hb : s.current_player = Player.black <;> simp [hb]
    · by_cases hb : s.current_player = Player.black <;> simp [hb]
    · by_cases hb : s.current_player = Player.black
      · simp [hb]
      · simp [hb]
    · by_cases hb : s.current_player = Player.black
      · simp [hb]
      · simp only [if_neg hb, Option.some.injEq]
        intro _
        cases hpv : s.current_player with
        | black => exact absurd hpv hb
        | white => rfl
        | empty => exact absurd hpv hcp
    · by_cases hb : s.current_player = Player.black <;> simp [hb]
    · by_cases hb : s.current_player = Player.black <;> simp [hb]
  | false =>
    by_cases hfl : (225 : Int) ≤ s.move_count + 1
    · rw [make_move_draw_eq s row col hv hw hfl]
      simp only [Inv, placed]
      exact ⟨hwf1, hcp, hmcount,
             fun h => absurd h (by decide), fun _ => hong_w hong,
             fun h => absurd h (by decide), fun h => absurd h (by decide),
             fun h => absurd h (by decide), fun h => absurd h (by decide)⟩
    · rw [make_move_advance_eq s row col hv hw hfl]
      simp only [Inv, placed]
      rw [hong]
      refine ⟨hwf1, ?_, hmcount,
              fun _ => hong_w hong, fun h => absurd h (by decide),
              fun h => absurd h (by decide), fun h => absurd h (by decide), ?_, ?_⟩
      · by_cases hb : s.current_player = Player.black <;> simp [hb]
      · intro _
        have hiff := hpar hong
        have hmc : 0 ≤ s.move_count := by
          rw [hcount]
          positivity
        cases hpb : s.current_player with
        | black =>
          have h0 : s.move_count % 2 = 0 := hiff.1 hpb
          simp only [if_pos rfl]
          constructor
          · intro h
            exact absurd h (by decide)
          · intro h
            exfalso
            omega
        | white =>
          have h1 : s.move_count % 2 ≠ 0 := fun h => by
            have h2 := hiff.2 h
            rw [hpb] at h2
            exact absurd h2 (by decide)
          rw [if_neg (by decide)]
          constructor
          · intro _
            omega
          · intro _
            rfl
        | empty => exact absurd hpb hcp
      · intro _
        omega

/-- Every reachable state satisfies `Inv`. -/
lemma reachable_inv (s : GameState) (h : Reachable s) : Inv s := by
  induction h with
  | reset => exact Inv_resetState
  | step s row col _ hsucc ih => exact Inv_step s row col ih hsucc

lemma make_move_success_move_count (s : GameState) (row col : Int)
    (hs : (make_move s row col).1 = true) :
    (make_move s row col).2.move_count = s.move_count + 1 := by
  have hv := make_move_success_valid s row col hs
  cases hw : check_win (placed s row col) row col with
  | true =>
    rw [make_move_win_eq s row col hv hw]
    rfl
  | false =>
    by_cases hfl : (225 : Int) ≤ s.move_count + 1
    · rw [make_move_draw_eq s row col hv hw hfl]
      rfl
    · rw [make_move_advance_eq s row col hv hw hfl]
      rfl


lemma make_move_success_board (s : GameState) (row col : Int)
    (hs : (make_move s row col).1 = true) :
    (make_move s row col).2.board =
      set_cell s.board row.toNat col.toNat s.current_player.value := by
  have hv := make_move_success_valid s row col hs
  cases hw : check_win (placed s row col) row col with
  | true =>
    rw [make_move_win_eq s row col hv hw]
    rfl
  | false =>
    by_cases hfl : (225 : Int) ≤ s.move_count + 1
    · rw [make_move_draw_eq s row col hv hw hfl]
      rfl
    · rw [make_move_advance_eq s row col hv hw hfl]
      rfl

lemma playMoves_move_count (ms : List (Int × Int)) (s : GameState)
    (h : allSucceed s ms) :
    (playMoves s ms).move_count = s.move_count + ms.length := by
  induction ms generalizing s with
  | nil => simp [playMoves]
  | cons m tl ih =>
    obtain ⟨h1, h2⟩ := h
    rw [playMoves, ih _ h2, make_move_success_move_count s m.1 m.2 h1]
    simp only [List.length_cons]
    push_cast
    omega

lemma reachable_playMoves (ms : List (Int × Int)) (s : GameState)
    (hr : Reachable s) (h : allSucceed s ms) : Reachable (playMoves s ms) := by
  induction ms generalizing s with
  | nil => exact hr
  | cons m tl ih =>
    obtain ⟨h1, h2⟩ := h
    exact ih _ (Reachable.step s m.1 m.2 hr h1) h2

/-- `check_win` returns true exactly when some axis's run through the placed
stone has length at least 5. -/
lemma check_win_iff (s : GameState) (row col : Int) :
    check_win s row col = true ↔
      ∃ d ∈ directions,
        5 ≤ line_count s.board s.current_player.value row col d.1 d.2 := by
  rw [check_win, List.any_eq_true]
  constructor
  · rintro ⟨d, hd, hle⟩
    exact ⟨d, hd, by simpa using hle⟩
  · rintro ⟨d, hd, hle⟩
    exact ⟨d, hd, by simpa using hle⟩

/-- The win check made by `make_move` is exactly "some axis's run through
the placed stone, on the board after placement, has length ≥ 5". -/
lemma check_win_placed_iff (s : GameState) (row col : Int) :
    check_win (placed s row col) row col = true ↔
      ∃ d ∈ directions,
        5 ≤ line_count (set_cell s.board row.toNat col.toNat s.current_player.value)
              s.current_player.value row col d.1 d.2 := by
  rw [check_win_iff]
  simp only [placed]

/-! ## Claim theorems -/

/-- C2: whenever `is_valid_move(row, col)` is false, `make_move(row, col)`
returns `False` and leaves the entire `GameState` — board, current player,
status, move count, winner and last move — unchanged. -/
theorem make_move_invalid_unchanged (s : GameState) (row col : Int)
    (h : is_valid_move s row col = false) :
    make_move s row col = (false, s) :=
  make_move_invalid s row col h

theorem make_move_invalid_unchanged_witness :
    is_valid_move resetState (-1) 0 = false
    ∧ make_move resetState (-1) 0 = (false, resetState) :=
  ⟨by decide, make_move_invalid_unchanged resetState (-1) 0 (by decide)⟩

/-- C4: in every state reachable from `reset_game` by successful moves,
`move_count` equals the number of non-empty cells on the board; and after
`k` successful moves from reset, `move_count` equals `k`. -/
theorem move_count_equals_stones :
    (∀ s : GameState, Reachable s → s.move_count = (countStones s.board : Int))
    ∧ ∀ ms : List (Int × Int), allSucceed resetState ms →
        (playMoves resetState ms).move_count = (ms.length : Int) := by
  constructor
  · intro s h
    exact (reachable_inv s h).2.2.1
  · intro ms h
    rw [playMoves_move_count ms resetState h]
    simp [resetState]

theorem move_count_equals_stones_witness :
    (Reachable resetState
      ∧ resetState.move_count = (countStones resetState.board : Int))
    ∧ allSucceed resetState [((7 : Int), (7 : Int))]
    ∧ (playMoves resetState [((7 : Int), (7 : Int))]).move_count
        = (([((7 : Int), (7 : Int))].length : Nat) : Int) :=
  ⟨⟨Reachable.reset, move_count_equals_stones.1 resetState Reachable.reset⟩,
   by decide, move_count_equals_stones.2 [((7 : Int), (7 : Int))] (by decide)⟩

/-- C5: from the reset state the current player alternates strictly
Black, White, Black, … over successful moves (Black exactly when the move
count is even; after `i` successful moves not ending the game, Black iff
`i` is even); and a move whose resulting status is not `Ongoing` (a win or
draw, or a failed move on a finished game) leaves `current_player`
unchanged, so the turn is frozen once the game ends. -/
theorem turn_alternation_and_freeze :
    (∀ s : GameState, Reachable s → s.game_status = GameStatus.ongoing →
       (s.current_player = Player.black ↔ s.move_count % 2 = 0))
    ∧ (∀ ms : List (Int × Int), allSucceed resetState ms →
        (playMoves resetState ms).game_status = GameStatus.ongoing →
        ((playMoves resetState ms).current_player = Player.black ↔ ms.length % 2 = 0))
    ∧ ∀ (s : GameState) (row col : Int),
        (make_move s row col).2.game_status ≠ GameStatus.ongoing →
        (make_move s row col).2.current_player = s.current_player := by
  refine ⟨?_, ?_, ?_⟩
  · intro s h hong
    exact (reachable_inv s h).2.2.2.2.2.2.2.1 hong
  · intro ms h hong
    have hr := reachable_playMoves ms resetState Reachable.reset h
    have hpar := (reachable_inv _ hr).2.2.2.2.2.2.2.1 hong
    have hmc := playMoves_move_count ms resetState h
    rw [hmc] at hpar
    simp only [resetState] at hpar
    constructor
    · intro hb
      have h2 := hpar.1 hb
      omega
    · intro hlen
      apply hpar.2
      omega
  · intro s row col hne
    by_cases hv : is_valid_move s row col = true
    · cases hw : check_win (placed s row col) row col with
      | true =>
        rw [make_move_win_eq s row col hv hw]
        rfl
      | false =>
        by_cases hfl : (225 : Int) ≤ s.move_count + 1
        · rw [make_move_draw_eq s row col hv hw hfl]
          rfl
        · exfalso
          apply hne
          rw [make_move_advance_eq s row col hv hw hfl]
          exact ((is_valid_move_iff s row col).1 hv).1
    · rw [make_move_invalid s row col (by simpa using hv)]

theorem turn_alternation_and_freeze_witness :
    (Reachable resetState ∧ resetState.game_status = GameStatus.ongoing
      ∧ (resetState.current_player = Player.black ↔ resetState.move_count % 2 = 0))
    ∧ (allSucceed resetState [((7 : Int), (7 : Int)), ((7 : Int), (8 : Int))]
      ∧ (playMoves resetState [((7 : Int), (7 : Int)), ((7 : Int), (8 : Int))]).game_status
          = GameStatus.ongoing
      ∧ ((playMoves resetState [((7 : Int), (7 : Int)), ((7 : Int), (8 : Int))]).current_player
            = Player.black
          ↔ ([((7 : Int), (7 : Int)), ((7 : Int), (8 : Int))]).length % 2 = 0))
    ∧ ((make_move drawState 0 0).2.game_status ≠ GameStatus.ongoing
      ∧ (make_move drawState 0 0).2.current_player = drawState.current_player) :=
  ⟨⟨Reachable.reset, rfl, turn_alternation_and_freeze.1 resetState Reachable.reset rfl⟩,
   ⟨by decide, by decide,
    turn_alternation_and_freeze.2.1 [((7 : Int), (7 : Int)), ((7 : Int), (8 : Int))]
      (by decide) (by decide)⟩,
   ⟨by decide, turn_alternation_and_freeze.2.2 drawState 0 0 (by decide)⟩⟩

/-- C6: in every reachable state, `winner` is set (non-`None`) exactly when
`game_status` is `BlackWins` or `WhiteWins`, and when set it matches the
status (Black for `BlackWins`, White for `WhiteWins`). -/
theorem winner_iff_win_status (s : GameState) (h : Reachable s) :
    (s.winner ≠ none ↔
      s.game_status = GameStatus.black_wins ∨ s.game_status = GameStatus.white_wins)
    ∧ (s.game_status = GameStatus.black_wins → s.winner = some Player.black)
    ∧ (s.game_status = GameStatus.white_wins → s.winner = some Player.white) := by
  obtain ⟨-, -, -, hong_w, hdraw_w, hbw, hww, -, -⟩ := reachable_inv s h
  refine ⟨?_, hbw, hww⟩
  cases hst : s.game_status with
  | ongoing => simp [hong_w hst]
  | draw => simp [hdraw_w hst]
  | black_wins => simp [hbw hst]
  | white_wins => simp [hww hst]

theorem winner_iff_win_status_witness :
    Reachable resetState
    ∧ ((resetState.winner ≠ none ↔
          resetState.game_status = GameStatus.black_wins
          ∨ resetState.game_status = GameStatus.white_wins)
      ∧ (resetState.game_status = GameStatus.black_wins →
          resetState.winner = some Player.black)
      ∧ (resetState.game_status = GameStatus.white_wins →
          resetState.winner = some Player.white)) :=
  ⟨Reachable.reset, winner_iff_win_status resetState Reachable.reset⟩

/-- C7: a successful move that brings `move_count` to 225 without creating
a five-in-a-row through the placed stone sets the status to `Draw` and
leaves `winner` at `None`; and in every reachable ongoing state the move
count is below 225 (equivalently, a full board is never `Ongoing`), with
`winner = None` whenever the game is still ongoing. -/
theorem final_move_draw :
    (∀ (s : GameState) (row col : Int),
       s.winner = none →
       (make_move s row col).1 = true →
       (make_move s row col).2.move_count = 225 →
       (¬ ∃ d ∈ directions,
           5 ≤ line_count (set_cell s.board row.toNat col.toNat s.current_player.value)
                 s.current_player.value row col d.1 d.2) →
       (make_move s row col).2.game_status = GameStatus.draw ∧
         (make_move s row col).2.winner = none)
    ∧ (∀ s : GameState, Reachable s → s.game_status = GameStatus.ongoing →
        s.move_count ≠ 225)
    ∧ (∀ s : GameState, Reachable s → s.game_status = GameStatus.ongoing →
        s.winner = none) := by
  refine ⟨?_, ?_, ?_⟩
  · intro s row col hwn hs hc hnex
    have hv := make_move_success_valid s row col hs
    have hw : check_win (placed s row col) row col = false := by
      rw [← Bool.not_eq_true, check_win_placed_iff]
      exact hnex
    have hfull : (225 : Int) ≤ s.move_count + 1 := by
      have h2 := make_move_success_move_count s row col hs
      omega
    rw [make_move_draw_eq s row col hv hw hfull]
    exact ⟨rfl, hwn⟩
  · intro s h hong
    exact (reachable_inv s h).2.2.2.2.2.2.2.2 hong
  · intro s h hong
    exact (reachable_inv s h).2.2.2.1 hong

theorem final_move_draw_witness :
    (almostFullState.winner = none
      ∧ (make_move almostFullState 0 0).1 = true
      ∧ (make_move almostFullState 0 0).2.move_count = 225
      ∧ (¬ ∃ d ∈ directions,
          5 ≤ line_count
                (set_cell almostFullState.board (0 : Int).toNat (0 : Int).toNat
                  almostFullState.current_player.value)
                almostFullState.current_player.value 0 0 d.1 d.2)
      ∧ ((make_move almostFullState 0 0).2.game_status = GameStatus.draw ∧
          (make_move almostFullState 0 0).2.winner = none))
    ∧ (Reachable resetState ∧ resetState.game_status = GameStatus.ongoing
        ∧ resetState.move_count ≠ 225 ∧ resetState.winner = none) :=
  ⟨⟨rfl, by decide, by decide, by decide,
    final_move_draw.1 almostFullState 0 0 rfl (by decide) (by decide) (by decide)⟩,
   ⟨Reachable.reset, rfl,
    final_move_draw.2.1 resetState Reachable.reset rfl,
    final_move_draw.2.2 resetState Reachable.reset rfl⟩⟩

/-- C8: for a state satisfying the data model, `is_valid_move(row, col)`
returns true exactly when the status is `Ongoing`, both indices lie in
[0, 15), and the target cell is empty — so it is false on an occupied cell
whoever is to move, and false on a finished game even for an empty cell.
It is a pure function of the state (no side effects). -/
theorem is_valid_move_spec (s : GameState) (row col : Int) (_hwf : WF s.board) :
    is_valid_move s row col = true ↔
      s.game_status = GameStatus.ongoing ∧ 0 ≤ row ∧ row < 15 ∧ 0 ≤ col ∧ col < 15 ∧
      get_cell s.board row.toNat col.toNat = Player.empty.value :=
  is_valid_move_iff s row col

theorem is_valid_move_spec_witness :
    WF resetState.board
    ∧ (is_valid_move resetState 0 0 = true ↔
        resetState.game_status = GameStatus.ongoing ∧ (0 : Int) ≤ 0 ∧ (0 : Int) < 15
        ∧ (0 : Int) ≤ 0 ∧ (0 : Int) < 15
        ∧ get_cell resetState.board (0 : Int).toNat (0 : Int).toNat = Player.empty.value) :=
  ⟨by decide, is_valid_move_spec resetState 0 0 (by decide)⟩

/-- C10: a successful `make_move(row, col)` changes only the cell at
(row, col), which goes from empty to the moving player's mark; every other
cell keeps exactly its previous value. -/
theorem make_move_frame (s : GameState) (row col : Int)
    (hwf : WF s.board) (hs : (make_move s row col).1 = true) :
    get_cell (make_move s row col).2.board row.toNat col.toNat = s.current_player.value
    ∧ get_cell s.board row.toNat col.toNat = Player.empty.value
    ∧ ∀ i j : Nat, ¬(i = row.toNat ∧ j = col.toNat) →
        get_cell (make_move s row col).2.board i j = get_cell s.board i j := by
  have hv := make_move_success_valid s row col hs
  obtain ⟨hong, hr0, hr15, hc0, hc15, hcell⟩ := (is_valid_move_iff s row col).1 hv
  rw [make_move_success_board s row col hs]
  refine ⟨?_, hcell, ?_⟩
  · exact get_cell_set_cell_self _ _ _ _ hwf (by unfold BOARD_SIZE; omega)
      (by unfold BOARD_SIZE; omega)
  · intro i j hij
    exact get_cell_set_cell_ne _ _ _ i j _ hij

theorem make_move_frame_witness :
    WF resetState.board
    ∧ (make_move resetState 7 7).1 = true
    ∧ (get_cell (make_move resetState 7 7).2.board (7 : Int).toNat (7 : Int).toNat
          = resetState.current_player.value
      ∧ get_cell resetState.board (7 : Int).toNat (7 : Int).toNat = Player.empty.value
      ∧ ∀ i j : Nat, ¬(i = (7 : Int).toNat ∧ j = (7 : Int).toNat) →
          get_cell (make_move resetState 7 7).2.board i j = get_cell resetState.board i j) :=
  ⟨by decide, by decide, make_move_frame resetState 7 7 (by decide) (by decide)⟩

/-- C1: for every ongoing state, a successful `make_move(row, col)` by the
current player `P` ends with status = `P`'s `*Wins` value and `winner = P`
exactly when, on the board with `P`'s stone placed at (row, col), one of
the four axes carries a run of at least five consecutive `P` stones
through (row, col) (the stone itself plus both directions, counted once);
runs longer than five also win. -/
theorem make_move_win_iff_five_run (s : GameState) (row col : Int)
    (hong : s.game_status = GameStatus.ongoing)
    (hs : (make_move s row col).1 = true) :
    ((make_move s row col).2.game_status =
        (if s.current_player = Player.black then GameStatus.black_wins
         else GameStatus.white_wins) ∧
      (make_move s row col).2.winner = some s.current_player)
    ↔ ∃ d ∈ directions,
        5 ≤ line_count (set_cell s.board row.toNat col.toNat s.current_player.value)
              s.current_player.value row col d.1 d.2 := by
  have hv := make_move_success_valid s row col hs
  cases hw : check_win (placed s row col) row col with
  | true =>
    rw [make_move_win_eq s row col hv hw]
    exact iff_of_true ⟨rfl, rfl⟩ ((check_win_placed_iff s row col).1 hw)
  | false =>
    have hnot : ¬ ∃ d ∈ directions,
        5 ≤ line_count (set_cell s.board row.toNat col.toNat s.current_player.value)
              s.current_player.value row col d.1 d.2 := by
      intro hex
      have hcw := (check_win_placed_iff s row col).2 hex
      rw [hw] at hcw
      exact Bool.false_ne_true hcw
    by_cases hfl : (225 : Int) ≤ s.move_count + 1
    · rw [make_move_draw_eq s row col hv hw hfl]
      refine iff_of_false ?_ hnot
      rintro ⟨h1, -⟩
      have h2 : GameStatus.draw =
          (if s.current_player = Player.black then GameStatus.black_wins
           else GameStatus.white_wins) := h1
      by_cases hb : s.current_player = Player.black
      · rw [if_pos hb] at h2
        exact absurd h2 (by decide)
      · rw [if_neg hb] at h2
        exact absurd h2 (by decide)
    · rw [make_move_advance_eq s row col hv hw hfl]
      refine iff_of_false ?_ hnot
      rintro ⟨h1, -⟩
      have h2 : s.game_status =
          (if s.current_player = Player.black then GameStatus.black_wins
           else GameStatus.white_wins) := h1
      rw [hong] at h2
      by_cases hb : s.current_player = Player.black
      · rw [if_pos hb] at h2
        exact absurd h2 (by decide)
      · rw [if_neg hb] at h2
        exact absurd h2 (by decide)

theorem make_move_win_iff_five_run_witness :
    fourState.game_status = GameStatus.ongoing
    ∧ (make_move fourState 0 4).1 = true
    ∧ (((make_move fourState 0 4).2.game_status =
          (if fourState.current_player = Player.black then GameStatus.black_wins
           else GameStatus.white_wins) ∧
        (make_move fourState 0 4).2.winner = some fourState.current_player)
      ↔ ∃ d ∈ directions,
          5 ≤ line_count
                (set_cell fourState.board (0 : Int).toNat (4 : Int).toNat
                  fourState.current_player.value)
                fourState.current_player.value 0 4 d.1 d.2) :=
  ⟨rfl, by decide, make_move_win_iff_five_run fourState 0 4 rfl (by decide)⟩

/-- C9: for every `GameState` within the data model (a 15×15 board),
`save_state()` followed by `load_state()` reproduces an equal state —
board, current player, status, move count, winner and last move all
survive the round trip — whatever state the loading object held before. -/
theorem save_load_roundtrip (s s₀ : GameState)
    (h1 : s.board.length = BOARD_SIZE)
    (h2 : ∀ row ∈ s.board, row.length = BOARD_SIZE) :
    load_state s₀ (LoadInput.parsed (save_data s)) = (true, s, none) := by
  have hshape : ¬ (s.board.length ≠ BOARD_SIZE
      ∨ (s.board.any fun row => decide (row.length ≠ BOARD_SIZE)) = true) := by
    push_neg
    refine ⟨h1, ?_⟩
    simp only [ne_eq, Bool.not_eq_true, List.any_eq_false]
    intro row hrow
    simp [h2 row hrow]
  cases hwin : s.winner with
  | none =>
    simp only [load_state, save_data, Option.getD_some, parse_player_value,
               parse_status_value, hwin, Option.map_none', parse_winner]
    rw [if_neg hshape]
    rw [← hwin]
  | some p =>
    have hpv : parse_winner (some p.value) = some (some p) := by
      cases p <;> rfl
    simp only [load_state, save_data, Option.getD_some, parse_player_value,
               parse_status_value, hwin, Option.map_some', hpv]
    rw [if_neg hshape]
    rw [← hwin]

theorem save_load_roundtrip_witness :
    resetState.board.length = BOARD_SIZE
    ∧ (∀ row ∈ resetState.board, row.length = BOARD_SIZE)
    ∧ load_state resetState (LoadInput.parsed (save_data resetState)) =
        (true, resetState, none) :=
  ⟨by decide, by decide,
   save_load_roundtrip resetState resetState (by decide) (by decide)⟩

/-- C3 (counterexample to the claim as stated): on the malformed persisted
record with `game_status = "bogus"` — the spec's own example of malformed
input — `load_state` returns `False`, not `True`. -/
theorem load_state_malformed_claim_counterexample :
    Malformed (LoadInput.parsed bogusData)
    ∧ (load_state resetState (LoadInput.parsed bogusData)).1 = false := by
  constructor
  · decide
  · rfl

/-- C3 (amended): on every malformed persisted input, `load_state` never
raises; it performs a reset, persists the reset state, and leaves the
held state equal to the reset state.  The returned boolean is `True`
exactly when all field-level parses succeed (the malformation is only a
wrong board shape); when parsing itself fails (unparseable text or an
unknown enum value) it returns `False`. -/
theorem load_state_malformed_recovery (s : GameState) (input : LoadInput)
    (h : Malformed input) :
    ∃ b, load_state s input = (b, resetState, some (save_data resetState)) ∧
      (b = true ↔ ∃ d, input = LoadInput.parsed d ∧ ParseOk d) := by
  cases input with
  | noFile => exact absurd h (by simp [Malformed])
  | unparseable =>
    refine ⟨false, rfl, ?_⟩
    constructor
    · intro hb
      exact absurd hb (by decide)
    · rintro ⟨d, hd, -⟩
      exact absurd hd (by simp)
  | parsed d =>
    cases hp : parse_player (d.current_player.getD Player.black.value) with
    | none =>
      refine ⟨false, by simp only [load_state, hp], ?_⟩
      constructor
      · intro hb
        exact absurd hb (by decide)
      · rintro ⟨d', hd', hok⟩
        injection hd' with hdd
        subst hdd
        exact absurd hp hok.1
    | some cp =>
      cases hst : parse_status (d.game_status.getD GameStatus.ongoing.value) with
      | none =>
        refine ⟨false, by simp only [load_state, hp, hst], ?_⟩
        constructor
        · intro hb
          exact absurd hb (by decide)
        · rintro ⟨d', hd', hok⟩
          injection hd' with hdd
          subst hdd
          exact absurd hst hok.2.1
      | some st =>
        cases hwp : parse_winner d.winner with
        | none =>
          refine ⟨false, by simp only [load_state, hp, hst, hwp], ?_⟩
          constructor
          · intro hb
            exact absurd hb (by decide)
          · rintro ⟨d', hd', hok⟩
            injection hd' with hdd
            subst hdd
            exact absurd hwp hok.2.2
        | some win =>
          have hshape : (d.board.getD []).length ≠ BOARD_SIZE
              ∨ ((d.board.getD []).any fun row => decide (row.length ≠ BOARD_SIZE)) = true := by
            rcases h with h | h | h | h | h
            · rw [hp] at h
              exact absurd h (by simp)
            · rw [hst] at h
              exact absurd h (by simp)
            · rw [hwp] at h
              exact absurd h (by simp)
            · exact Or.inl h
            · refine Or.inr ?_
              rw [List.any_eq_true]
              obtain ⟨row, hrow, hne⟩ := h
              exact ⟨row, hrow, by simpa using hne⟩
          refine ⟨true, ?_, ?_⟩
          · simp only [load_state, hp, hst, hwp]
            rw [if_pos hshape]
          · constructor
            · intro _
              refine ⟨d, rfl, ?_, ?_, ?_⟩
              · rw [hp]
                simp
              · rw [hst]
                simp
              · rw [hwp]
                simp
            · intro _
              rfl

theorem load_state_malformed_recovery_witness :
    Malformed (LoadInput.parsed bogusData)
    ∧ ∃ b, load_state resetState (LoadInput.parsed bogusData) =
        (b, resetState, some (save_data resetState)) ∧
      (b = true ↔ ∃ d, LoadInput.parsed bogusData = LoadInput.parsed d ∧ ParseOk d) :=
  ⟨by decide,
   load_state_malformed_recovery resetState (LoadInput.parsed bogusData) (by decide)⟩

end Omok
